import Mathlib

/-!
Verification of the LLM reliability evaluation pipeline (`src/evaluation.py`).

The Python source is shallowly embedded below.  Python strings are Lean
`String`s (manipulated through their `List Char` data), Python floats are
modelled as exact rationals `ℚ`, Python `round` is round-half-to-even on
rationals, and the fallible dictionary/list accesses of the orchestrator
are modelled with `Except`/`Option`.  `difflib.SequenceMatcher` (used by
`similarity`) is embedded in full: position table with the autojunk
purge, the dynamic-programming longest-match loop, the four extension
loops, the matching-block queue, and the ratio computation.
-/

namespace Evaluation

/-! ### Python string primitives -/

/-- Python `str.lower`, restricted to the ASCII case mapping. -/
def pyLower (s : List Char) : List Char := s.map Char.toLower

/-- Whitespace characters removed by Python `str.strip`. -/
def pyIsSpace (c : Char) : Bool :=
  c = ' ' || c = '\t' || c = '\n' || c = '\x0d' || c = '\x0b' || c = '\x0c'

/-- Python `str.strip`: drop leading and trailing whitespace. -/
def pyStrip (s : List Char) : List Char :=
  ((s.dropWhile pyIsSpace).reverse.dropWhile pyIsSpace).reverse

/-- Python `str.split(sep)` for a one-character separator `sep`. -/
def splitOnChar (sep : Char) : List Char → List (List Char)
  | [] => [[]]
  | c :: rest =>
    if c = sep then [] :: splitOnChar sep rest
    else
      match splitOnChar sep rest with
      | [] => [[c]]
      | t :: ts => (c :: t) :: ts

/-- Python substring containment `needle in hay`. -/
def strContains (hay needle : List Char) : Bool :=
  (List.range (hay.length + 1)).any (fun i => (hay.drop i).take needle.length == needle)

/-- Round a rational to the nearest integer, ties to even (Python `round`
on exact values). -/
def roundHalfEvenInt (x : ℚ) : ℤ :=
  let f := ⌊x⌋
  let r := x - f
  if r < 1/2 then f
  else if 1/2 < r then f + 1
  else if f % 2 = 0 then f else f + 1

/-- Python `round(x, ndigits)` on exact rationals. -/
def pyRound (ndigits : ℕ) (x : ℚ) : ℚ :=
  (roundHalfEvenInt (x * (10 : ℚ) ^ ndigits) : ℚ) / (10 : ℚ) ^ ndigits

/-! ### difflib.SequenceMatcher, instantiated at `isjunk = None`

Embedding of the CPython implementation: the `b2j` position table with
the autojunk purge, `find_longest_match` (dynamic-programming loop plus
the four extension loops), `get_matching_blocks` (work queue, sort,
adjacent merge, sentinel) and `ratio`. -/

/-- Indices at which `c` occurs in `b`, in ascending order (the `b2j`
table before the autojunk purge). -/
def posns (c : Char) (b : List Char) : List Nat :=
  (List.range b.length).filter (fun j => b.get? j == some c)

/-- Autojunk: an element of `b` is popular when `b` has at least 200
elements and the element occurs more than `len(b) / 100 + 1` times. -/
def popularChar (b : List Char) (c : Char) : Bool :=
  200 ≤ b.length && b.length / 100 + 1 < (posns c b).length

/-- The `b2j` table after the autojunk purge: position lists of popular
elements are deleted. -/
def b2j (b : List Char) (c : Char) : List Nat :=
  if popularChar b c then [] else posns c b

/-- The junk set `bjunk` is empty because the source passes
`isjunk = None` to `SequenceMatcher`. -/
def bjunk (_ : Char) : Bool := false

/-- The running `(besti, bestj, bestsize)` of `find_longest_match`. -/
structure FLMState where
  besti : Nat
  bestj : Nat
  bestsize : Nat
deriving DecidableEq, Repr

/-- Inner loop of `find_longest_match`: walk the ascending position list
of `a[i]` in `b`, building the new run-length table and updating the
best match; `continue` below `blo`, `break` at `bhi`.  The run-length
dictionaries are total functions defaulting to `0` (the stored values
are always positive, so `j2len.get(j-1, 0)` is the function value; the
read at `j = 0` corresponds to Python's absent key `-1`). -/
def innerLoop (j2len : Nat → Nat) (i blo bhi : Nat) :
    List Nat → (Nat → Nat) → FLMState → (Nat → Nat) × FLMState
  | [], newj2len, st => (newj2len, st)
  | j :: js, newj2len, st =>
    if j < blo then innerLoop j2len i blo bhi js newj2len st
    else if bhi ≤ j then (newj2len, st)
    else
      let k := (if j = 0 then 0 else j2len (j - 1)) + 1
      let newj2len' := fun j' => if j' = j then k else newj2len j'
      let st' : FLMState := if st.bestsize < k then ⟨i + 1 - k, j + 1 - k, k⟩ else st
      innerLoop j2len i blo bhi js newj2len' st'

/-- Outer loop of `find_longest_match` over the rows `alo .. ahi-1`
(supplied as an explicit index list), threading the previous row's
run-length table. -/
def dpLoop (a b : List Char) (blo bhi : Nat) :
    List Nat → (Nat → Nat) → FLMState → FLMState
  | [], _, st => st
  | i :: is, j2len, st =>
    let p := innerLoop j2len i blo bhi (b2j b (a.getD i ' ')) (fun _ => 0) st
    dpLoop a b blo bhi is p.1 p.2

/-- Backward extension loop of `find_longest_match`: extend the match to
the left while both windows have room, `b[bestj-1]` satisfies `p`, and
the two elements agree.  The first argument is fuel bounding the
iteration count; each iteration decreases `besti` by one and requires
`alo < besti`, so the fuel `besti` passed by `find_longest_match` is
never exhausted and the function is exactly the source's while loop. -/
def extendLo (a b : List Char) (alo blo : Nat) (p : Char → Bool) :
    Nat → FLMState → FLMState
  | 0, st => st
  | fuel + 1, st =>
    if alo < st.besti ∧ blo < st.bestj ∧ p (b.getD (st.bestj - 1) ' ') = true ∧
        a.getD (st.besti - 1) ' ' = b.getD (st.bestj - 1) ' ' then
      extendLo a b alo blo p fuel ⟨st.besti - 1, st.bestj - 1, st.bestsize + 1⟩
    else st

/-- Forward extension loop of `find_longest_match`: extend the match to
the right under the symmetric conditions.  The fuel
`ahi - (besti + bestsize)` passed by `find_longest_match` bounds the
iteration count (each iteration grows `bestsize` while
`besti + bestsize < ahi`), so the function is exactly the while loop. -/
def extendHi (a b : List Char) (ahi bhi : Nat) (p : Char → Bool) :
    Nat → FLMState → FLMState
  | 0, st => st
  | fuel + 1, st =>
    if st.besti + st.bestsize < ahi ∧ st.bestj + st.bestsize < bhi ∧
        p (b.getD (st.bestj + st.bestsize) ' ') = true ∧
        a.getD (st.besti + st.bestsize) ' ' = b.getD (st.bestj + st.bestsize) ' ' then
      extendHi a b ahi bhi p fuel ⟨st.besti, st.bestj, st.bestsize + 1⟩
    else st

/-- Embeds `find_longest_match(alo, ahi, blo, bhi)`: the dynamic-programming
pass, then extension by non-junk equal elements on each end, then
extension by junk equal elements (a no-op here since `bjunk` is empty,
kept to mirror the source). -/
def find_longest_match (a b : List Char) (alo ahi blo bhi : Nat) : FLMState :=
  let st0 := dpLoop a b blo bhi (List.range' alo (ahi - alo)) (fun _ => 0) ⟨alo, blo, 0⟩
  let st1 := extendLo a b alo blo (fun c => !bjunk c) st0.besti st0
  let st2 := extendHi a b ahi bhi (fun c => !bjunk c) (ahi - (st1.besti + st1.bestsize)) st1
  let st3 := extendLo a b alo blo bjunk st2.besti st2
  extendHi a b ahi bhi bjunk (ahi - (st3.besti + st3.bestsize)) st3

/-- Work-queue loop of `get_matching_blocks`.  The queue is a stack (the
Python list is popped from its end, so the later-pushed high window is
processed first).  The explicit fuel only bounds the iteration count:
each round removes a window and pushes strictly smaller ones, so the
initial fuel `len(a) + len(b) + 2` passed below is never exhausted. -/
def mbLoop (a b : List Char) :
    Nat → List (Nat × Nat × Nat × Nat) → List (Nat × Nat × Nat) → List (Nat × Nat × Nat)
  | 0, _, acc => acc
  | _ + 1, [], acc => acc
  | fuel + 1, (alo, ahi, blo, bhi) :: queue, acc =>
    let st := find_longest_match a b alo ahi blo bhi
    let acc' := acc ++ [(st.besti, st.bestj, st.bestsize)]
    if 0 < st.bestsize then
      let qHi : List (Nat × Nat × Nat × Nat) :=
        if st.besti + st.bestsize < ahi ∧ st.bestj + st.bestsize < bhi then
          [(st.besti + st.bestsize, ahi, st.bestj + st.bestsize, bhi)] else []
      let qLo : List (Nat × Nat × Nat × Nat) :=
        if alo < st.besti ∧ blo < st.bestj then [(alo, st.besti, blo, st.bestj)] else []
      mbLoop a b fuel (qHi ++ qLo ++ queue) acc'
    else mbLoop a b fuel queue acc'

/-- Lexicographic comparison of block triples (Python tuple `<=`). -/
def blockLE (x y : Nat × Nat × Nat) : Bool :=
  x.1 < y.1 || (x.1 = y.1 && (x.2.1 < y.2.1 || (x.2.1 = y.2.1 && x.2.2 ≤ y.2.2)))

/-- Insert a block into a sorted block list. -/
def insertBlock (x : Nat × Nat × Nat) : List (Nat × Nat × Nat) → List (Nat × Nat × Nat)
  | [] => [x]
  | y :: ys => if blockLE x y then x :: y :: ys else y :: insertBlock x ys

/-- Embeds `matching_blocks.sort()` (insertion sort by the tuple order). -/
def sortBlocks : List (Nat × Nat × Nat) → List (Nat × Nat × Nat)
  | [] => []
  | x :: xs => insertBlock x (sortBlocks xs)

/-- The adjacent-merge pass of `get_matching_blocks`, starting from the
accumulator `(i1, j1, k1)` (initially `(0, 0, 0)`); a zero-size
accumulator is dropped rather than emitted. -/
def mergeBlocks : Nat × Nat × Nat → List (Nat × Nat × Nat) → List (Nat × Nat × Nat)
  | (i1, j1, k1), [] => if 0 < k1 then [(i1, j1, k1)] else []
  | (i1, j1, k1), (i2, j2, k2) :: rest =>
    if i1 + k1 = i2 ∧ j1 + k1 = j2 then mergeBlocks (i1, j1, k1 + k2) rest
    else (if 0 < k1 then [(i1, j1, k1)] else []) ++ mergeBlocks (i2, j2, k2) rest

/-- Embeds `SequenceMatcher.get_matching_blocks`: queue pass, sort, adjacent
merge, terminating sentinel `(len(a), len(b), 0)`. -/
def get_matching_blocks (a b : List Char) : List (Nat × Nat × Nat) :=
  let raw := mbLoop a b (a.length + b.length + 2) [(0, a.length, 0, b.length)] []
  mergeBlocks (0, 0, 0) (sortBlocks raw) ++ [(a.length, b.length, 0)]

/-- Embeds `SequenceMatcher.ratio`: twice the matched length over the combined
length, and `1.0` when both sequences are empty. -/
def pyRatio (a b : List Char) : ℚ :=
  let total := ((get_matching_blocks a b).map (fun t => t.2.2)).sum
  if a.length + b.length = 0 then 1
  else (2 * total : ℚ) / ((a.length : ℚ) + (b.length : ℚ))

/-- Embeds `similarity(a, b) = SequenceMatcher(None, a.lower(), b.lower()).ratio()`. -/
def similarity (a b : String) : ℚ :=
  pyRatio (pyLower a.data) (pyLower b.data)

/-! ### The evaluation pipeline -/

/-- Embeds `extract_claims(response)`: split on `"."`, strip each fragment, keep
the stripped fragments longer than 10 characters. -/
def extract_claims (response : String) : List String :=
  (splitOnChar '.' response.data).filterMap (fun s =>
    if 10 < (pyStrip s).length then some (String.mk (pyStrip s)) else none)

/-- The fatal errors the orchestrator can surface: a missing-role turn
(`IndexError` on `[-1]`) and a context record without a `text` field
(`KeyError`). -/
inductive EvalError where
  | MissingTurnError
  | MissingFieldError
deriving DecidableEq, Repr

/-- A context-vector record; `text` is `none` when the underlying
dictionary lacks the `"text"` key (other fields are ignored). -/
structure ContextVector where
  text : Option String
deriving DecidableEq, Repr

/-- The `text` fields of the vector records, in order; `none` as soon as
a record lacks the field (the Python generator raises `KeyError` at the
first such record). -/
def collectTexts : List ContextVector → Option (List String)
  | [] => some []
  | v :: vs =>
    match v.text, collectTexts vs with
    | some t, some ts => some (t :: ts)
    | _, _ => none

/-- Embeds `flatten_context(vectors)`: join the `text` fields with single
spaces; a record without `text` raises. -/
def flatten_context (vectors : List ContextVector) : Except EvalError String :=
  match collectTexts vectors with
  | none => Except.error EvalError.MissingFieldError
  | some texts => Except.ok (String.intercalate " " texts)

/-- Embeds `relevance_score(user_query, response)`. -/
def relevance_score (user_query response : String) : ℚ :=
  similarity user_query response

/-- The fixed keyword checklist of `completeness_score`. -/
def expected_keywords : List String := ["cost", "price", "address", "night", "rupees"]

/-- Embeds `completeness_score(user_query, response)`: fraction of checklist
keywords occurring in `response.lower()`; `user_query` is unused. -/
def completeness_score (user_query response : String) : ℚ :=
  let hits := (expected_keywords.filter (fun k => strContains (pyLower response.data) k.data)).length
  (hits : ℚ) / (expected_keywords.length : ℚ)

/-- The record returned by `hallucination_score`. -/
structure HallucinationResult where
  hallucination_score : ℚ
  unsupported_claims : List String
deriving DecidableEq, Repr

/-- Embeds `hallucination_score(response, context_text)`; the float threshold
`0.35` is the rational `35/100`. -/
def hallucination_score (response context_text : String) : HallucinationResult :=
  let claims := extract_claims response
  let unsupported := claims.foldl
    (fun acc claim => if similarity claim context_text < 35/100 then acc ++ [claim] else acc) []
  let score : ℚ := 1 - ((unsupported.length : ℚ) / (max claims.length 1 : ℕ))
  ⟨pyRound 2 score, unsupported⟩

/-- The record returned by `latency_cost_metrics`. -/
structure LatencyCost where
  latency_seconds : ℚ
  estimated_cost_usd : ℚ
deriving DecidableEq, Repr

/-- Embeds `latency_cost_metrics(start_time, tokens_used, cost_per_1k)`; the
internal `time.time()` reading is the explicit final parameter `now`,
and the default argument `cost_per_1k = 0.002` is passed explicitly by
callers as `2/1000`. -/
def latency_cost_metrics (start_time : ℚ) (tokens_used : ℕ) (cost_per_1k : ℚ) (now : ℚ) :
    LatencyCost :=
  let latency := now - start_time
  let cost := ((tokens_used : ℚ) / 1000) * cost_per_1k
  ⟨pyRound 3 latency, pyRound 6 cost⟩

/-- One conversation turn. -/
structure Turn where
  role : String
  message : String
deriving DecidableEq, Repr

/-- The conversation input record. -/
structure ChatJson where
  conversation_turns : List Turn
deriving DecidableEq, Repr

/-- The `data` object of the context input record. -/
structure ContextData where
  vector_data : List ContextVector
deriving DecidableEq, Repr

/-- The context input record. -/
structure ContextJson where
  data : ContextData
deriving DecidableEq, Repr

/-- The result record assembled by `evaluate`. -/
structure ScoreResult where
  relevance_score : ℚ
  completeness_score : ℚ
  hallucination_analysis : HallucinationResult
  latency_and_cost : LatencyCost
  final_verdict : String
deriving DecidableEq, Repr

/-- Embeds `[t for t in chat["conversation_turns"] if t["role"] == "User"][-1]`,
as an optional value. -/
def lastUserTurn (chat_json : ChatJson) : Option Turn :=
  (chat_json.conversation_turns.filter (fun t => t.role == "User")).getLast?

/-- The last `"AI/Chatbot"`-role turn, as an optional value. -/
def lastAiTurn (chat_json : ChatJson) : Option Turn :=
  (chat_json.conversation_turns.filter (fun t => t.role == "AI/Chatbot")).getLast?

/-- Embeds `evaluate(chat_json, context_json)`.  The two wall-clock readings of
the source (`start = time.time()`, and the reading taken inside
`latency_cost_metrics`) are the explicit parameters `t0` and `t1`. -/
def evaluate (t0 t1 : ℚ) (chat_json : ChatJson) (context_json : ContextJson) :
    Except EvalError ScoreResult :=
  match lastUserTurn chat_json with
  | none => Except.error EvalError.MissingTurnError
  | some user_turn =>
    match lastAiTurn chat_json with
    | none => Except.error EvalError.MissingTurnError
    | some ai_turn =>
      match flatten_context context_json.data.vector_data with
      | Except.error e => Except.error e
      | Except.ok context_text =>
        let relevance := relevance_score user_turn.message ai_turn.message
        let completeness := completeness_score user_turn.message ai_turn.message
        let hallucination := hallucination_score ai_turn.message context_text
        let metrics := latency_cost_metrics t0 450 (2/1000) t1
        Except.ok
          { relevance_score := pyRound 2 relevance
            completeness_score := pyRound 2 completeness
            hallucination_analysis := hallucination
            latency_and_cost := metrics
            final_verdict :=
              if hallucination.unsupported_claims.isEmpty then "PASS" else "FAIL" }

/-! ### Concrete inputs used by witnesses and counterexamples -/

/-- A conversation with one turn of each role; both messages coincide so
every similarity computed for it is the identical-strings case. -/
def sampleChat : ChatJson :=
  ⟨[⟨"User", "hellohellohi."⟩, ⟨"AI/Chatbot", "hellohellohi."⟩]⟩

/-- A context whose single vector repeats the assistant's claim. -/
def sampleContext : ContextJson := ⟨⟨[⟨some "hellohellohi"⟩]⟩⟩

/-- The record `evaluate 0 1 sampleChat sampleContext` returns. -/
def sampleResult : ScoreResult :=
  { relevance_score := 1
    completeness_score := 0
    hallucination_analysis := { hallucination_score := 1, unsupported_claims := [] }
    latency_and_cost := { latency_seconds := 1, estimated_cost_usd := 9/10000 }
    final_verdict := "PASS" }

/-- A conversation without any `"User"`-role turn. -/
def noUserChat : ChatJson := ⟨[⟨"AI/Chatbot", "hello"⟩]⟩

/-- A response with 201 extractable claims: 200 repeat the context
verbatim and one shares no character with it. -/
def repeatResponse : String :=
  String.mk (List.flatten (List.replicate 200 "abcdefghijk.".data) ++ "zzzzzzzzzzz.".data)

/-! ### Proof-side auxiliaries for the identical-strings analysis

`Rrun l i j` is the run length the inner loop of `find_longest_match`
stores at column `j` while processing row `i`, for the matcher run on
the pair `(l, l)` over the full windows: the length of the maximal
common suffix of matching non-popular positions ending at `(i, j)`. -/

def Rrun (l : List Char) : Nat → Nat → Nat
  | 0, j => if j ∈ b2j l (l.getD 0 ' ') then 1 else 0
  | i + 1, j =>
    if j ∈ b2j l (l.getD (i + 1) ' ') then
      match j with
      | 0 => 1
      | j' + 1 => Rrun l i j' + 1
    else 0

/-- The run-length table `find_longest_match` threads into row `i` on
the pair `(l, l)`: the zero table for row 0, row `i - 1`'s table after. -/
def prevRow (l : List Char) : Nat → Nat → Nat
  | 0, _ => 0
  | i + 1, j => Rrun l i j

/-! ### Helper lemmas: rounding -/

theorem roundHalfEvenInt_intCast (m : ℤ) : roundHalfEvenInt (m : ℚ) = m := by
  unfold roundHalfEvenInt
  rw [Int.floor_intCast]
  norm_num

theorem pyRound_eq_of_mul_pow_eq (n : ℕ) (x : ℚ) (m : ℤ) (h : x * (10 : ℚ) ^ n = (m : ℚ)) :
    pyRound n x = (m : ℚ) / (10 : ℚ) ^ n := by
  rw [pyRound, h, roundHalfEvenInt_intCast]

theorem roundHalfEvenInt_nonneg (x : ℚ) (hx : 0 ≤ x) : 0 ≤ roundHalfEvenInt x := by
  have hf : (0 : ℤ) ≤ ⌊x⌋ := Int.floor_nonneg.mpr hx
  simp only [roundHalfEvenInt]
  split_ifs <;> omega

theorem pyRound_nonneg (n : ℕ) (x : ℚ) (hx : 0 ≤ x) : 0 ≤ pyRound n x := by
  unfold pyRound
  apply div_nonneg
  · exact_mod_cast roundHalfEvenInt_nonneg _ (by positivity)
  · positivity

/-! ### Helper lemmas: the hallucination scorer -/

theorem foldl_if_append {α : Type} (p : α → Prop) [DecidablePred p] :
    ∀ l acc : List α,
      l.foldl (fun a c => if p c then a ++ [c] else a) acc
        = acc ++ l.filter (fun c => decide (p c))
  | [], acc => by simp
  | x :: xs, acc => by
    by_cases h : p x <;>
      simp [List.foldl_cons, h, foldl_if_append p xs, List.filter_cons]

theorem hallucination_unsupported_eq (response context_text : String) :
    (hallucination_score response context_text).unsupported_claims
      = (extract_claims response).filter
          (fun claim => decide (similarity claim context_text < 35/100)) := by
  simp only [hallucination_score]
  rw [foldl_if_append (fun claim => similarity claim context_text < 35/100)]
  simp

theorem hallucination_score_value (response context_text : String) :
    (hallucination_score response context_text).hallucination_score
      = pyRound 2 (1 -
          (((hallucination_score response context_text).unsupported_claims.length : ℚ)
            / (max (extract_claims response).length 1 : ℕ))) := rfl

/-! ### Helper lemmas: the orchestrator -/

theorem flatten_context_ne_missing_turn (vectors : List ContextVector) :
    flatten_context vectors ≠ Except.error EvalError.MissingTurnError := by
  unfold flatten_context
  cases collectTexts vectors <;> simp

theorem evaluate_ok_elim (t0 t1 : ℚ) (chat_json : ChatJson) (context_json : ContextJson)
    (res : ScoreResult) (h : evaluate t0 t1 chat_json context_json = Except.ok res) :
    ∃ u ai ctext, lastUserTurn chat_json = some u ∧ lastAiTurn chat_json = some ai ∧
      flatten_context context_json.data.vector_data = Except.ok ctext ∧
      res = { relevance_score := pyRound 2 (relevance_score u.message ai.message)
              completeness_score := pyRound 2 (completeness_score u.message ai.message)
              hallucination_analysis := hallucination_score ai.message ctext
              latency_and_cost := latency_cost_metrics t0 450 (2/1000) t1
              final_verdict :=
                if (hallucination_score ai.message ctext).unsupported_claims.isEmpty
                then "PASS" else "FAIL" } := by
  unfold evaluate at h
  cases hu : lastUserTurn chat_json with
  | none => rw [hu] at h; exact absurd h (by simp)
  | some u =>
    rw [hu] at h
    cases ha : lastAiTurn chat_json with
    | none => rw [ha] at h; exact absurd h (by simp)
    | some ai =>
      rw [ha] at h
      cases hf : flatten_context context_json.data.vector_data with
      | error e => rw [hf] at h; exact absurd h (by simp)
      | ok ctext =>
        rw [hf] at h
        simp only [Except.ok.injEq] at h
        exact ⟨u, ai, ctext, rfl, rfl, rfl, h.symm⟩

theorem lastRole_eq_none_iff (turns : List Turn) (r : String) :
    (turns.filter (fun t => t.role == r)).getLast? = none ↔
      ∀ t ∈ turns, t.role ≠ r := by
  rw [List.getLast?_eq_none_iff, List.filter_eq_nil_iff]
  simp

theorem collectTexts_eq_none_iff (vs : List ContextVector) :
    collectTexts vs = none ↔ ∃ v ∈ vs, v.text = none := by
  induction vs with
  | nil => simp [collectTexts]
  | cons v vs ih =>
    cases hv : v.text with
    | none => simp [collectTexts, hv]
    | some t =>
      cases hc : collectTexts vs with
      | none => simp [collectTexts, hv, hc, ← ih]
      | some ts => simp [collectTexts, hv, hc, ← ih]

theorem collectTexts_of_all_some (vs : List ContextVector) (h : ∀ v ∈ vs, v.text ≠ none) :
    collectTexts vs = some (vs.filterMap (fun v => v.text)) := by
  induction vs with
  | nil => rfl
  | cons v vs ih =>
    cases hv : v.text with
    | none => exact absurd hv (h v (by simp))
    | some t =>
      rw [collectTexts, hv, ih (fun u hu => h u (by simp [hu])), List.filterMap_cons, hv]

theorem extract_claims_mapfilter (L : List (List Char)) :
    L.filterMap (fun s => if 10 < (pyStrip s).length then some (String.mk (pyStrip s)) else none)
      = (L.map (fun s => String.mk (pyStrip s))).filter (fun t => decide (10 < t.length)) := by
  induction L with
  | nil => rfl
  | cons s L ih =>
    by_cases h : 10 < (pyStrip s).length <;>
      simp [List.filterMap_cons, List.filter_cons, h, String.length_mk, ih]

/-! ### Helper lemmas: the matcher on an identical pair of sequences -/

theorem mem_posns_iff (c : Char) (l : List Char) (j : Nat) :
    j ∈ posns c l ↔ j < l.length ∧ l.get? j = some c := by
  simp [posns, List.mem_filter, List.mem_range]

theorem mem_b2j_iff (l : List Char) (c : Char) (j : Nat) :
    j ∈ b2j l c ↔ popularChar l c = false ∧ j < l.length ∧ l.get? j = some c := by
  unfold b2j
  by_cases h : popularChar l c <;> simp [h, mem_posns_iff]

theorem mem_b2j_lt (l : List Char) (c : Char) (j : Nat) (h : j ∈ b2j l c) : j < l.length :=
  ((mem_b2j_iff l c j).mp h).2.1

theorem b2j_sorted (l : List Char) (c : Char) : List.Pairwise (· < ·) (b2j l c) := by
  unfold b2j
  by_cases h : popularChar l c <;>
    simp [h, posns, List.Pairwise.filter _ (List.pairwise_lt_range _)]

theorem getD_of_get? (l : List Char) (i : Nat) (c : Char) (h : l.get? i = some c) :
    l.getD i ' ' = c := by
  rw [List.getD_eq_getElem?_getD, ← List.get?_eq_getElem?, h]
  rfl

theorem get?_getD_self (l : List Char) (i : Nat) (hi : i < l.length) :
    l.get? i = some (l.getD i ' ') := by
  rw [List.get?_eq_get hi, List.getD_eq_getElem?_getD, ← List.get?_eq_getElem?,
    List.get?_eq_get hi]
  rfl

theorem mem_b2j_diag_of_mem (l : List Char) (i j : Nat) (hi : i < l.length)
    (h : j ∈ b2j l (l.getD i ' ')) : i ∈ b2j l (l.getD i ' ') := by
  obtain ⟨hpop, -, -⟩ := (mem_b2j_iff _ _ _).mp h
  exact (mem_b2j_iff _ _ _).mpr ⟨hpop, hi, get?_getD_self l i hi⟩

theorem mem_b2j_shift (l : List Char) (i j : Nat)
    (h : j ∈ b2j l (l.getD i ' ')) : j ∈ b2j l (l.getD j ' ') := by
  obtain ⟨hpop, hj, hget⟩ := (mem_b2j_iff _ _ _).mp h
  rw [getD_of_get? l j _ hget]
  exact h

theorem Rrun_zero (l : List Char) (j : Nat) :
    Rrun l 0 j = if j ∈ b2j l (l.getD 0 ' ') then 1 else 0 := rfl

theorem Rrun_succ_zero (l : List Char) (i : Nat) :
    Rrun l (i + 1) 0 = if 0 ∈ b2j l (l.getD (i + 1) ' ') then 1 else 0 := rfl

theorem Rrun_succ_succ (l : List Char) (i j' : Nat) :
    Rrun l (i + 1) (j' + 1)
      = if j' + 1 ∈ b2j l (l.getD (i + 1) ' ') then Rrun l i j' + 1 else 0 := rfl

theorem Rrun_le_succ (l : List Char) : ∀ i j, Rrun l i j ≤ i + 1 := by
  intro i
  induction i with
  | zero => intro j; rw [Rrun_zero]; split <;> omega
  | succ i ih =>
    intro j
    cases j with
    | zero => rw [Rrun_succ_zero]; split <;> omega
    | succ j' =>
      rw [Rrun_succ_succ]
      have := ih j'
      split <;> omega

theorem Rrun_eq_zero_of_not_mem (l : List Char) (i j : Nat)
    (h : j ∉ b2j l (l.getD i ' ')) : Rrun l i j = 0 := by
  cases i with
  | zero => rw [Rrun_zero, if_neg h]
  | succ i =>
    cases j with
    | zero => rw [Rrun_succ_zero, if_neg h]
    | succ j' => rw [Rrun_succ_succ, if_neg h]

theorem Rrun_diag_pos (l : List Char) (j : Nat)
    (h : j ∈ b2j l (l.getD j ' ')) : 1 ≤ Rrun l j j := by
  cases j with
  | zero => rw [Rrun_zero, if_pos h]
  | succ j' => rw [Rrun_succ_succ, if_pos h]; omega

theorem Rrun_le_diag_row (l : List Char) :
    ∀ i, i < l.length → ∀ j, Rrun l i j ≤ Rrun l i i := by
  intro i
  induction i with
  | zero =>
    intro hi j
    by_cases h : j ∈ b2j l (l.getD 0 ' ')
    · have h0 : 0 ∈ b2j l (l.getD 0 ' ') := mem_b2j_diag_of_mem l 0 j hi h
      rw [Rrun_zero, if_pos h, Rrun_zero, if_pos h0]
    · rw [Rrun_zero, if_neg h]
      omega
  | succ i ih =>
    intro hi j
    by_cases h : j ∈ b2j l (l.getD (i + 1) ' ')
    · have hd : (i + 1) ∈ b2j l (l.getD (i + 1) ' ') := mem_b2j_diag_of_mem l (i + 1) j hi h
      have hdiag : Rrun l (i + 1) (i + 1) = Rrun l i i + 1 := by
        rw [Rrun_succ_succ, if_pos hd]
      cases j with
      | zero =>
        rw [Rrun_succ_zero, if_pos h, hdiag]
        omega
      | succ j' =>
        rw [Rrun_succ_succ, if_pos h, hdiag]
        have := ih (by omega) j'
        omega
    · rw [Rrun_eq_zero_of_not_mem l _ _ h]
      omega

theorem Rrun_le_diag_col (l : List Char) :
    ∀ i j, j < l.length → Rrun l i j ≤ Rrun l j j := by
  intro i
  induction i with
  | zero =>
    intro j hj
    by_cases h : j ∈ b2j l (l.getD 0 ' ')
    · have := Rrun_diag_pos l j (mem_b2j_shift l 0 j h)
      rw [Rrun_zero, if_pos h]
      omega
    · rw [Rrun_zero, if_neg h]
      omega
  | succ i ih =>
    intro j hj
    by_cases h : j ∈ b2j l (l.getD (i + 1) ' ')
    · have hs : j ∈ b2j l (l.getD j ' ') := mem_b2j_shift l (i + 1) j h
      cases j with
      | zero =>
        rw [Rrun_succ_zero, if_pos h, Rrun_zero, if_pos hs]
      | succ j' =>
        rw [Rrun_succ_succ, if_pos h, Rrun_succ_succ, if_pos hs]
        have := ih j' (by omega)
        omega
    · rw [Rrun_eq_zero_of_not_mem l _ _ h]
      omega

theorem innerLoop_cons_step (prev : Nat → Nat) (i n j0 : Nat) (rest : List Nat)
    (newj2len : Nat → Nat) (st : FLMState) (hj0 : j0 < n) :
    innerLoop prev i 0 n (j0 :: rest) newj2len st
      = innerLoop prev i 0 n rest
          (fun j' => if j' = j0 then (if j0 = 0 then 0 else prev (j0 - 1)) + 1 else newj2len j')
          (if st.bestsize < (if j0 = 0 then 0 else prev (j0 - 1)) + 1
           then ⟨i + 1 - ((if j0 = 0 then 0 else prev (j0 - 1)) + 1),
                 j0 + 1 - ((if j0 = 0 then 0 else prev (j0 - 1)) + 1),
                 (if j0 = 0 then 0 else prev (j0 - 1)) + 1⟩
           else st) := by
  simp only [innerLoop]
  rw [if_neg (Nat.not_lt_zero j0), if_neg (not_le.mpr hj0)]

/-- Invariant of the inner loop on the pair `(l, l)` over the full
windows: the best match stays on the diagonal, its size only grows and
dominates the diagonal run of the current row once the diagonal column
has been processed, the match fits inside the sequence, and the new
run-length table records exactly the runs of the processed columns. -/
theorem innerLoop_self (l : List Char) (i : Nat) (hi : i < l.length) (prev : Nat → Nat)
    (hk : ∀ j ∈ b2j l (l.getD i ' '), (if j = 0 then 0 else prev (j - 1)) + 1 = Rrun l i j) :
    ∀ (rest : List Nat) (newj2len : Nat → Nat) (st : FLMState),
      (∀ j ∈ rest, j ∈ b2j l (l.getD i ' ')) →
      List.Pairwise (· < ·) rest →
      (∀ j ∈ rest, j < i → Rrun l i j ≤ st.bestsize) →
      st.besti = st.bestj →
      st.besti + st.bestsize ≤ l.length →
      (i ∈ rest ∨ Rrun l i i ≤ st.bestsize) →
      (innerLoop prev i 0 l.length rest newj2len st).2.besti
          = (innerLoop prev i 0 l.length rest newj2len st).2.bestj
        ∧ st.bestsize ≤ (innerLoop prev i 0 l.length rest newj2len st).2.bestsize
        ∧ (innerLoop prev i 0 l.length rest newj2len st).2.besti
            + (innerLoop prev i 0 l.length rest newj2len st).2.bestsize ≤ l.length
        ∧ Rrun l i i ≤ (innerLoop prev i 0 l.length rest newj2len st).2.bestsize
        ∧ (∀ j, (innerLoop prev i 0 l.length rest newj2len st).1 j
            = if j ∈ rest then Rrun l i j else newj2len j) := by
  intro rest
  induction rest with
  | nil =>
    intro newj2len st hsub hsort hlt hdiag hbound hset
    refine ⟨hdiag, le_refl _, hbound, ?_, ?_⟩
    · rcases hset with h | h
      · exact absurd h (List.not_mem_nil i)
      · exact h
    · intro j
      simp [innerLoop]
  | cons j0 rest ih =>
    intro newj2len st hsub hsort hlt hdiag hbound hset
    have hj0mem : j0 ∈ b2j l (l.getD i ' ') := hsub j0 (by simp)
    have hj0lt : j0 < l.length := mem_b2j_lt l _ j0 hj0mem
    have hkj0 : (if j0 = 0 then 0 else prev (j0 - 1)) + 1 = Rrun l i j0 := hk j0 hj0mem
    have hhead : ∀ j ∈ rest, j0 < j := (List.pairwise_cons.mp hsort).1
    have hsort' : List.Pairwise (· < ·) rest := (List.pairwise_cons.mp hsort).2
    have hsub' : ∀ j ∈ rest, j ∈ b2j l (l.getD i ' ') :=
      fun j hj => hsub j (List.mem_cons_of_mem j0 hj)
    rw [innerLoop_cons_step prev i l.length j0 rest newj2len st hj0lt, hkj0]
    by_cases hcase : st.bestsize < Rrun l i j0
    · -- the best match is updated; this can only happen on the diagonal
      have hj0i : j0 = i := by
        rcases Nat.lt_trichotomy j0 i with hji | hji | hji
        · exact absurd hcase (not_lt.mpr (le_trans (hlt j0 (by simp) hji) (le_refl _)))
        · exact hji
        · exfalso
          rcases hset with hmem | hle
          · rcases List.mem_cons.mp hmem with hii | hii
            · omega
            · exact absurd hji (not_lt.mpr (le_of_lt (hhead i hii)))
          · have := Rrun_le_diag_row l i hi j0
            omega
      subst hj0i
      rw [if_pos hcase]
      have hR : Rrun l j0 j0 ≤ j0 + 1 := Rrun_le_succ l j0 j0
      obtain ⟨c1, c2, c3, c4, c5⟩ := ih
        (fun j' => if j' = j0 then Rrun l j0 j0 else newj2len j')
        ⟨j0 + 1 - Rrun l j0 j0, j0 + 1 - Rrun l j0 j0, Rrun l j0 j0⟩
        hsub' hsort'
        (fun j hj hji => absurd (hhead j hj) (not_lt.mpr (le_of_lt hji)))
        rfl (by show j0 + 1 - Rrun l j0 j0 + Rrun l j0 j0 ≤ l.length; omega)
        (Or.inr (le_refl _))
      refine ⟨c1, by omega, c3, c4, ?_⟩
      intro j
      rw [c5 j]
      by_cases hj : j ∈ rest
      · rw [if_pos hj, if_pos (List.mem_cons_of_mem j0 hj)]
      · rw [if_neg hj]
        by_cases hjj : j = j0
        · subst hjj
          rw [if_pos rfl, if_pos (by simp)]
        · rw [if_neg hjj, if_neg (by simp [hj, hjj])]
    · -- no update
      rw [if_neg hcase]
      have hset' : i ∈ rest ∨ Rrun l i i ≤ st.bestsize := by
        rcases hset with hmem | hle
        · rcases List.mem_cons.mp hmem with hii | hii
          · subst hii
            exact Or.inr (by omega)
          · exact Or.inl hii
        · exact Or.inr hle
      obtain ⟨c1, c2, c3, c4, c5⟩ := ih
        (fun j' => if j' = j0 then Rrun l i j0 else newj2len j')
        st hsub' hsort' (fun j hj hji => hlt j (List.mem_cons_of_mem j0 hj) hji)
        hdiag hbound hset'
      refine ⟨c1, c2, c3, c4, ?_⟩
      intro j
      rw [c5 j]
      by_cases hj : j ∈ rest
      · rw [if_pos hj, if_pos (List.mem_cons_of_mem j0 hj)]
      · rw [if_neg hj]
        by_cases hjj : j = j0
        · subst hjj
          rw [if_pos rfl, if_pos (by simp)]
        · rw [if_neg hjj, if_neg (by simp [hj, hjj])]

theorem prevRow_step (l : List Char) (i : Nat) :
    ∀ j ∈ b2j l (l.getD i ' '), (if j = 0 then 0 else prevRow l i (j - 1)) + 1 = Rrun l i j := by
  intro j hj
  cases i with
  | zero =>
    cases j with
    | zero => rw [Rrun_zero, if_pos hj]; rfl
    | succ j' =>
      rw [Rrun_zero, if_pos hj]
      simp [prevRow]
  | succ i' =>
    cases j with
    | zero => rw [Rrun_succ_zero, if_pos hj]; rfl
    | succ j' =>
      rw [Rrun_succ_succ, if_pos hj]
      simp [prevRow]

/-- Invariant of the row loop on the pair `(l, l)` over the full
windows: after all rows up to the end of the sequence, the best match is
diagonal, fits inside the sequence, and its size dominates every
diagonal run. -/
theorem dpLoop_self (l : List Char) :
    ∀ (m i : Nat), i + m = l.length →
      ∀ (prev : Nat → Nat) (st : FLMState),
        (∀ j, prev j = prevRow l i j) →
        st.besti = st.bestj →
        st.besti + st.bestsize ≤ l.length →
        (∀ i' < i, Rrun l i' i' ≤ st.bestsize) →
        (dpLoop l l 0 l.length (List.range' i m) prev st).besti
            = (dpLoop l l 0 l.length (List.range' i m) prev st).bestj
          ∧ (dpLoop l l 0 l.length (List.range' i m) prev st).besti
              + (dpLoop l l 0 l.length (List.range' i m) prev st).bestsize ≤ l.length
          ∧ ∀ i' < l.length,
              Rrun l i' i' ≤ (dpLoop l l 0 l.length (List.range' i m) prev st).bestsize := by
  intro m
  induction m with
  | zero =>
    intro i him prev st hprev hdiag hbound hd
    simp only [List.range', dpLoop]
    exact ⟨hdiag, hbound, fun i' hi' => hd i' (by omega)⟩
  | succ m ih =>
    intro i him prev st hprev hdiag hbound hd
    have hi : i < l.length := by omega
    have hk : ∀ j ∈ b2j l (l.getD i ' '),
        (if j = 0 then 0 else prev (j - 1)) + 1 = Rrun l i j := by
      intro j hj
      rw [hprev (j - 1)]
      exact prevRow_step l i j hj
    have hlt : ∀ j ∈ b2j l (l.getD i ' '), j < i → Rrun l i j ≤ st.bestsize := by
      intro j hj hji
      exact le_trans (Rrun_le_diag_col l i j (mem_b2j_lt l _ j hj)) (hd j hji)
    have hset : i ∈ b2j l (l.getD i ' ') ∨ Rrun l i i ≤ st.bestsize := by
      by_cases hp : i ∈ b2j l (l.getD i ' ')
      · exact Or.inl hp
      · exact Or.inr (by rw [Rrun_eq_zero_of_not_mem l i i hp]; omega)
    obtain ⟨c1, c2, c3, c4, c5⟩ := innerLoop_self l i hi prev hk
      (b2j l (l.getD i ' ')) (fun _ => 0) st (fun j hj => hj) (b2j_sorted l _)
      hlt hdiag hbound hset
    have hrange : List.range' i (m + 1) = i :: List.range' (i + 1) m := List.range'_succ i m 1
    rw [hrange]
    simp only [dpLoop]
    have hprev' : ∀ j, (innerLoop prev i 0 l.length (b2j l (l.getD i ' ')) (fun _ => 0) st).1 j
        = prevRow l (i + 1) j := by
      intro j
      rw [c5 j]
      by_cases hj : j ∈ b2j l (l.getD i ' ')
      · rw [if_pos hj]
        rfl
      · rw [if_neg hj]
        show (0 : Nat) = Rrun l i j
        rw [Rrun_eq_zero_of_not_mem l i j hj]
    have hd' : ∀ i' < i + 1,
        Rrun l i' i'
          ≤ (innerLoop prev i 0 l.length (b2j l (l.getD i ' ')) (fun _ => 0) st).2.bestsize := by
      intro i' hi'
      rcases Nat.lt_or_ge i' i with h | h
      · exact le_trans (hd i' h) c2
      · have : i' = i := by omega
        subst this
        exact c4
    exact ih (i + 1) (by omega)
      (innerLoop prev i 0 l.length (b2j l (l.getD i ' ')) (fun _ => 0) st).1
      (innerLoop prev i 0 l.length (b2j l (l.getD i ' ')) (fun _ => 0) st).2
      hprev' c1 c3 hd'

theorem extendLo_junk (a b : List Char) (alo blo : Nat) :
    ∀ (fuel : Nat) (st : FLMState), extendLo a b alo blo bjunk fuel st = st := by
  intro fuel
  induction fuel with
  | zero => intro st; rfl
  | succ fuel ih =>
    intro st
    simp only [extendLo]
    rw [if_neg]
    simp [bjunk]

theorem extendHi_junk (a b : List Char) (ahi bhi : Nat) :
    ∀ (fuel : Nat) (st : FLMState), extendHi a b ahi bhi bjunk fuel st = st := by
  intro fuel
  induction fuel with
  | zero => intro st; rfl
  | succ fuel ih =>
    intro st
    simp only [extendHi]
    rw [if_neg]
    simp [bjunk]

theorem extendLo_true_self (l : List Char) :
    ∀ (fuel : Nat) (st : FLMState), st.besti = st.bestj → fuel = st.besti →
      extendLo l l 0 0 (fun c => !bjunk c) fuel st = ⟨0, 0, st.bestsize + fuel⟩ := by
  intro fuel
  induction fuel with
  | zero =>
    intro st hdiag hfuel
    cases st with
    | mk bi bj bs =>
      simp only [extendLo]
      simp only at hdiag hfuel
      subst hdiag
      rw [← hfuel]
      simp
  | succ fuel ih =>
    intro st hdiag hfuel
    simp only [extendLo]
    rw [if_pos ⟨by omega, by omega, by simp [bjunk], by rw [hdiag]⟩]
    rw [ih ⟨st.besti - 1, st.bestj - 1, st.bestsize + 1⟩ (by simp [hdiag]) (by simp; omega)]
    simp only []
    congr 1
    omega

theorem extendHi_true_self (l : List Char) :
    ∀ (fuel : Nat) (st : FLMState), st.besti = st.bestj →
      st.besti + st.bestsize + fuel = l.length →
      extendHi l l l.length l.length (fun c => !bjunk c) fuel st
        = ⟨st.besti, st.bestj, st.bestsize + fuel⟩ := by
  intro fuel
  induction fuel with
  | zero =>
    intro st hdiag hfuel
    cases st with
    | mk bi bj bs => rfl
  | succ fuel ih =>
    intro st hdiag hfuel
    simp only [extendHi]
    rw [if_pos ⟨by omega, by rw [← hdiag]; omega, by simp [bjunk], by rw [hdiag]⟩]
    rw [ih ⟨st.besti, st.bestj, st.bestsize + 1⟩ hdiag (by simp; omega)]
    simp only []
    congr 1
    omega

/-- On the pair `(l, l)` with the full windows, `find_longest_match`
returns the whole diagonal: the dynamic-programming pass leaves a
diagonal best match and the non-junk extension loops grow it to the
entire sequence. -/
theorem find_longest_match_self (l : List Char) :
    find_longest_match l l 0 l.length 0 l.length = ⟨0, 0, l.length⟩ := by
  obtain ⟨hdiag, hbound, -⟩ := dpLoop_self l l.length 0 (by omega) (fun _ => 0) ⟨0, 0, 0⟩
    (fun j => rfl) rfl (by simp) (fun i' hi' => absurd hi' (Nat.not_lt_zero i'))
  simp only [find_longest_match, Nat.sub_zero]
  rw [extendLo_true_self l _ _ hdiag rfl]
  rw [extendHi_true_self l _ ⟨0, 0, _⟩ rfl (by simp; omega)]
  rw [extendLo_junk, extendHi_junk]
  simp only []
  congr 1
  omega

/-- On the pair `(l, l)`, `get_matching_blocks` is the single full-length
diagonal block followed by the sentinel (the sentinel alone when the
sequence is empty, since the zero-size block is dropped by the merge). -/
theorem get_matching_blocks_self (l : List Char) :
    get_matching_blocks l l
      = if l.length = 0 then [(0, 0, 0)]
        else [(0, 0, l.length), (l.length, l.length, 0)] := by
  by_cases hn : l.length = 0
  · obtain rfl : l = [] := List.length_eq_zero.mp hn
    decide
  · rw [if_neg hn]
    unfold get_matching_blocks
    have hstep : mbLoop l l (l.length + l.length + 2) [(0, l.length, 0, l.length)] []
        = [(0, 0, l.length)] := by
      simp only [mbLoop, find_longest_match_self]
      rw [if_pos (Nat.pos_of_ne_zero hn)]
      rw [if_neg (by omega), if_neg (by simp)]
      simp [mbLoop]
    rw [hstep]
    simp [sortBlocks, insertBlock, mergeBlocks, Nat.pos_of_ne_zero hn]

/-- On the pair `(l, l)`, the matcher's ratio is exactly 1. -/
theorem pyRatio_self (l : List Char) : pyRatio l l = 1 := by
  unfold pyRatio
  rw [get_matching_blocks_self]
  by_cases hn : l.length = 0
  · simp [hn]
  · rw [if_neg hn]
    rw [if_neg (by omega : ¬(l.length + l.length = 0))]
    simp only [List.map_cons, List.map_nil, List.sum_cons, List.sum_nil]
    have h0 : ((l.length : ℚ)) ≠ 0 := Nat.cast_ne_zero.mpr hn
    field_simp
    ring

theorem similarity_self_aux (a : String) : similarity a a = 1 := by
  unfold similarity
  exact pyRatio_self (pyLower a.data)

theorem sample_hallucination :
    hallucination_score "hellohellohi." "hellohellohi" = ⟨1, []⟩ := by
  have hsim : similarity "hellohellohi" "hellohellohi" = 1 := similarity_self_aux _
  have hclaims : extract_claims "hellohellohi." = ["hellohellohi"] := by decide
  unfold hallucination_score
  rw [hclaims]
  simp only [List.foldl_cons, List.foldl_nil]
  rw [if_neg (by rw [hsim]; norm_num)]
  simp only [List.length_nil, List.length_cons]
  rw [show (1 - ((0 : ℕ) : ℚ) / ((max 1 1 : ℕ) : ℚ)) = 1 by norm_num]
  rw [pyRound_eq_of_mul_pow_eq 2 1 100 (by norm_num)]
  norm_num

theorem sample_evaluate_eq :
    evaluate 0 1 sampleChat sampleContext = Except.ok sampleResult := by
  have hrel : relevance_score "hellohellohi." "hellohellohi." = 1 := similarity_self_aux _
  have hcomp : completeness_score "hellohellohi." "hellohellohi." = 0 := by
    unfold completeness_score
    rw [show (expected_keywords.filter
        (fun k => strContains (pyLower "hellohellohi.".data) k.data)).length = 0 from by decide]
    norm_num
  unfold evaluate
  rw [show lastUserTurn sampleChat = some ⟨"User", "hellohellohi."⟩ from by decide]
  rw [show lastAiTurn sampleChat = some ⟨"AI/Chatbot", "hellohellohi."⟩ from by decide]
  rw [show flatten_context sampleContext.data.vector_data = Except.ok "hellohellohi" from rfl]
  simp only [sample_hallucination, hrel, hcomp]
  unfold sampleResult latency_cost_metrics
  simp only []
  rw [show (1 : ℚ) - 0 = 1 from by norm_num,
    show ((450 : ℕ) : ℚ) / 1000 * (2 / 1000) = 9/10000 from by norm_num]
  rw [pyRound_eq_of_mul_pow_eq 2 1 100 (by norm_num),
    pyRound_eq_of_mul_pow_eq 2 0 0 (by norm_num),
    pyRound_eq_of_mul_pow_eq 3 1 1000 (by norm_num),
    pyRound_eq_of_mul_pow_eq 6 (9/10000) 900 (by norm_num)]
  norm_num

theorem roundHE_eq_hundred_iff (y : ℚ) (h0 : 0 ≤ y) (h1 : y ≤ 100) :
    roundHalfEvenInt y = 100 ↔ 199/2 ≤ y := by
  have hfl : (0 : ℤ) ≤ ⌊y⌋ := Int.floor_nonneg.mpr h0
  have hfu : ⌊y⌋ ≤ 100 := by
    have h := Int.floor_le_floor h1
    simpa using h
  have hylb : (⌊y⌋ : ℚ) ≤ y := Int.floor_le y
  have hyub : y < ⌊y⌋ + 1 := Int.lt_floor_add_one y
  simp only [roundHalfEvenInt]
  split_ifs with hr1 hr2 hpar
  · constructor
    · intro h
      rw [h] at hylb
      push_cast at hylb
      linarith
    · intro h
      have h99 : (99 : ℚ) < (⌊y⌋ : ℚ) := by linarith
      have h99' : (99 : ℤ) < ⌊y⌋ := by exact_mod_cast h99
      omega
  · constructor
    · intro h
      have hf : ⌊y⌋ = 99 := by omega
      have hfq : (⌊y⌋ : ℚ) = 99 := by exact_mod_cast hf
      linarith
    · intro h
      have hup : (⌊y⌋ : ℚ) < 199/2 := by linarith
      have hdn : (197/2 : ℚ) < (⌊y⌋ : ℚ) := by linarith
      have h99 : ⌊y⌋ = 99 := by
        have a1 : ⌊y⌋ < 100 := by exact_mod_cast (by linarith : (⌊y⌋ : ℚ) < 100)
        have a2 : (98 : ℤ) < ⌊y⌋ := by exact_mod_cast (by linarith : (98 : ℚ) < (⌊y⌋ : ℚ))
        omega
      omega
  · have hr : y - ⌊y⌋ = 1/2 := by linarith
    constructor
    · intro h
      have hfq : (⌊y⌋ : ℚ) = 100 := by exact_mod_cast h
      linarith
    · intro h
      exfalso
      have h99 : ⌊y⌋ = 99 := by
        have a1 : (⌊y⌋ : ℚ) ≤ 199/2 := by linarith
        have a2 : (197/2 : ℚ) ≤ (⌊y⌋ : ℚ) := by linarith
        have b1 : ⌊y⌋ < 100 := by exact_mod_cast (by linarith : (⌊y⌋ : ℚ) < 100)
        have b2 : (98 : ℤ) < ⌊y⌋ := by exact_mod_cast (by linarith : (98 : ℚ) < (⌊y⌋ : ℚ))
        omega
      omega
  · have hr : y - ⌊y⌋ = 1/2 := by linarith
    constructor
    · intro h
      have hf : ⌊y⌋ = 99 := by omega
      have hfq : (⌊y⌋ : ℚ) = 99 := by exact_mod_cast hf
      linarith
    · intro h
      have h99 : ⌊y⌋ = 99 := by
        have a1 : (⌊y⌋ : ℚ) ≤ 199/2 := by linarith
        have b1 : ⌊y⌋ < 100 := by exact_mod_cast (by linarith : (⌊y⌋ : ℚ) < 100)
        have b2 : (98 : ℤ) < ⌊y⌋ := by exact_mod_cast (by linarith : (98 : ℚ) < (⌊y⌋ : ℚ))
        omega
      omega

theorem pyRound2_eq_one_iff (x : ℚ) (h0 : 0 ≤ x) (h1 : x ≤ 1) :
    pyRound 2 x = 1 ↔ 199/200 ≤ x := by
  unfold pyRound
  rw [show ((10 : ℚ) ^ 2) = 100 from by norm_num]
  have hdiv : ((roundHalfEvenInt (x * 100) : ℚ) / 100 = 1) ↔
      roundHalfEvenInt (x * 100) = 100 := by
    constructor
    · intro h
      have h' : (roundHalfEvenInt (x * 100) : ℚ) = 100 := by
        field_simp at h
        exact_mod_cast h
      exact_mod_cast h'
    · intro h
      rw [h]
      norm_num
  rw [hdiv, roundHE_eq_hundred_iff (x * 100) (by positivity) (by linarith)]
  constructor <;> intro h <;> linarith

theorem splitOnChar_sep_append (sep : Char) :
    ∀ (s rest : List Char), sep ∉ s →
      splitOnChar sep (s ++ sep :: rest) = s :: splitOnChar sep rest := by
  intro s
  induction s with
  | nil =>
    intro rest h
    simp [splitOnChar]
  | cons c s ih =>
    intro rest h
    have hc : ¬c = sep := fun hcs => h (by simp [hcs])
    have hs : sep ∉ s := fun hss => h (by simp [hss])
    show (if c = sep then [] :: splitOnChar sep (s ++ sep :: rest)
          else
            match splitOnChar sep (s ++ sep :: rest) with
            | [] => [[c]]
            | t :: ts => (c :: t) :: ts)
        = (c :: s) :: splitOnChar sep rest
    rw [if_neg hc, ih rest hs]

theorem filterMap_replicate_some {α β : Type} (f : α → Option β) (a : α) (b : β)
    (hf : f a = some b) :
    ∀ n : Nat, List.filterMap f (List.replicate n a) = List.replicate n b := by
  intro n
  induction n with
  | zero => rfl
  | succ n ih =>
    rw [List.replicate_succ, List.filterMap_cons, hf, ih, List.replicate_succ]

theorem filter_replicate_false {α : Type} (p : α → Bool) (a : α) (hp : p a = false) :
    ∀ n : Nat, List.filter p (List.replicate n a) = [] := by
  intro n
  induction n with
  | zero => rfl
  | succ n ih => rw [List.replicate_succ, List.filter_cons, hp, ih]; simp

theorem splitOnChar_flatten_blocks :
    ∀ n : Nat, splitOnChar '.' (List.flatten (List.replicate n "abcdefghijk.".data)
        ++ "zzzzzzzzzzz.".data)
      = List.replicate n "abcdefghijk".data ++ splitOnChar '.' "zzzzzzzzzzz.".data := by
  intro n
  induction n with
  | zero => simp
  | succ n ih =>
    rw [List.replicate_succ, List.flatten_cons, List.append_assoc]
    rw [show "abcdefghijk.".data ++ (List.flatten (List.replicate n "abcdefghijk.".data)
          ++ "zzzzzzzzzzz.".data)
        = "abcdefghijk".data ++ '.' :: (List.flatten (List.replicate n "abcdefghijk.".data)
          ++ "zzzzzzzzzzz.".data) from rfl]
    rw [splitOnChar_sep_append '.' _ _ (by decide), ih, List.replicate_succ]
    rfl

theorem extract_claims_repeatResponse :
    extract_claims repeatResponse = List.replicate 200 "abcdefghijk" ++ ["zzzzzzzzzzz"] := by
  unfold extract_claims repeatResponse
  rw [show (String.mk (List.flatten (List.replicate 200 "abcdefghijk.".data)
      ++ "zzzzzzzzzzz.".data)).data
    = List.flatten (List.replicate 200 "abcdefghijk.".data) ++ "zzzzzzzzzzz.".data from rfl]
  rw [splitOnChar_flatten_blocks 200]
  rw [List.filterMap_append]
  rw [filterMap_replicate_some _ _ "abcdefghijk" (by decide) 200]
  rw [show List.filterMap
      (fun s => if 10 < (pyStrip s).length then some (String.mk (pyStrip s)) else none)
      (splitOnChar '.' "zzzzzzzzzzz.".data) = ["zzzzzzzzzzz"] from by decide]

theorem similarity_zzz_abc : similarity "zzzzzzzzzzz" "abcdefghijk" = 0 := by
  unfold similarity pyRatio
  rw [show get_matching_blocks (pyLower "zzzzzzzzzzz".data) (pyLower "abcdefghijk".data)
      = [(11, 11, 0)] from by decide]
  rw [show (pyLower "zzzzzzzzzzz".data).length = 11 from by decide,
    show (pyLower "abcdefghijk".data).length = 11 from by decide]
  norm_num

/-! ### Claim theorems -/

/-- C1: whenever `evaluate` succeeds, the returned record has
`final_verdict = "FAIL"` if and only if
`hallucination_analysis.unsupported_claims` is non-empty. -/
theorem evaluate_final_verdict_fail_iff (t0 t1 : ℚ) (chat_json : ChatJson)
    (context_json : ContextJson) (res : ScoreResult)
    (h : evaluate t0 t1 chat_json context_json = Except.ok res) :
    res.final_verdict = "FAIL" ↔ res.hallucination_analysis.unsupported_claims ≠ [] := by
  obtain ⟨u, ai, ctext, -, -, -, hres⟩ := evaluate_ok_elim t0 t1 chat_json context_json res h
  subst hres
  cases hl : (hallucination_score ai.message ctext).unsupported_claims with
  | nil => simp [hl]
  | cons x xs => simp [hl]

/-- C2: `hallucination_score` marks a claim unsupported exactly when its
similarity to the context is strictly below 0.35, keeps the unsupported
claims in their original order, and returns
`1 - count(unsupported) / max(count(claims), 1)` rounded to 2 places. -/
theorem hallucination_score_spec (response context_text : String) :
    (hallucination_score response context_text).unsupported_claims
      = (extract_claims response).filter
          (fun claim => decide (similarity claim context_text < 35/100))
    ∧ (hallucination_score response context_text).hallucination_score
      = pyRound 2 (1 - ((((extract_claims response).filter
              (fun claim => decide (similarity claim context_text < 35/100))).length : ℚ)
            / (max (extract_claims response).length 1 : ℕ))) := by
  refine ⟨hallucination_unsupported_eq response context_text, ?_⟩
  rw [hallucination_score_value, hallucination_unsupported_eq]

/-- C3: `evaluate` fails with `MissingTurnError` exactly when the
conversation has no `"User"`-role turn or no `"AI/Chatbot"`-role turn,
and on success it scores the last turn of each role. -/
theorem evaluate_selects_last_turns (t0 t1 : ℚ) (chat_json : ChatJson)
    (context_json : ContextJson) :
    (evaluate t0 t1 chat_json context_json = Except.error EvalError.MissingTurnError ↔
      (∀ t ∈ chat_json.conversation_turns, t.role ≠ "User") ∨
      (∀ t ∈ chat_json.conversation_turns, t.role ≠ "AI/Chatbot"))
    ∧ (∀ res, evaluate t0 t1 chat_json context_json = Except.ok res →
        ∃ u ai ctext,
          lastUserTurn chat_json = some u ∧ lastAiTurn chat_json = some ai ∧
          flatten_context context_json.data.vector_data = Except.ok ctext ∧
          res.relevance_score = pyRound 2 (similarity u.message ai.message) ∧
          res.hallucination_analysis = hallucination_score ai.message ctext) := by
  constructor
  · constructor
    · intro h
      by_cases hu : lastUserTurn chat_json = none
      · exact Or.inl ((lastRole_eq_none_iff _ _).mp hu)
      · by_cases ha : lastAiTurn chat_json = none
        · exact Or.inr ((lastRole_eq_none_iff _ _).mp ha)
        · obtain ⟨u, hu'⟩ := Option.ne_none_iff_exists'.mp hu
          obtain ⟨ai, ha'⟩ := Option.ne_none_iff_exists'.mp ha
          unfold evaluate at h
          rw [hu', ha'] at h
          cases hf : flatten_context context_json.data.vector_data with
          | error e =>
            rw [hf] at h
            simp only [Except.error.injEq] at h
            exact absurd (h ▸ hf) (flatten_context_ne_missing_turn _)
          | ok ctext => rw [hf] at h; exact absurd h (by simp)
    · intro h
      rcases h with h | h
      · have hu : lastUserTurn chat_json = none := (lastRole_eq_none_iff _ _).mpr h
        unfold evaluate
        rw [hu]
      · have ha : lastAiTurn chat_json = none := (lastRole_eq_none_iff _ _).mpr h
        unfold evaluate
        cases hu : lastUserTurn chat_json with
        | none => rfl
        | some u => rw [ha]
  · intro res h
    obtain ⟨u, ai, ctext, hu, ha, hf, hres⟩ :=
      evaluate_ok_elim t0 t1 chat_json context_json res h
    subst hres
    exact ⟨u, ai, ctext, hu, ha, hf, rfl, rfl⟩

/-- C3 witness: a conversation without a `"User"`-role turn makes
`evaluate` fail with `MissingTurnError`. -/
theorem evaluate_selects_last_turns_witness :
    evaluate 0 0 noUserChat sampleContext = Except.error EvalError.MissingTurnError :=
  (evaluate_selects_last_turns 0 0 noUserChat sampleContext).1.mpr (Or.inl (by decide))

/-- C6 counterexample: with the clock reading 0 and the future start
time 10, `latency_cost_metrics` returns a negative latency. -/
theorem latency_cost_metrics_negative_latency :
    (latency_cost_metrics 10 450 (2/1000) 0).latency_seconds < 0 := by
  have h : (latency_cost_metrics 10 450 (2/1000) 0).latency_seconds = -10 := by
    show pyRound 3 ((0 : ℚ) - 10) = -10
    rw [pyRound_eq_of_mul_pow_eq 3 _ (-10000) (by norm_num)]
    norm_num
  rw [h]
  norm_num

/-- C6 amended: the returned latency is non-negative whenever the start
time is at most the clock reading; a future start time yields the
negative difference (the code neither fails nor clamps). -/
theorem latency_cost_metrics_nonneg_of_past_start (start_time now : ℚ) (tokens_used : ℕ)
    (cost_per_1k : ℚ) (h : start_time ≤ now) :
    0 ≤ (latency_cost_metrics start_time tokens_used cost_per_1k now).latency_seconds := by
  show 0 ≤ pyRound 3 (now - start_time)
  exact pyRound_nonneg 3 _ (by linarith)

/-- C6 amended, witness at `start_time = 0`, `now = 5`. -/
theorem latency_cost_metrics_nonneg_of_past_start_witness :
    0 ≤ (latency_cost_metrics 0 450 (2/1000) 5).latency_seconds :=
  latency_cost_metrics_nonneg_of_past_start 0 5 450 (2/1000) (by norm_num)

/-- C7: `extract_claims` splits on the period, strips each fragment,
keeps exactly the stripped fragments longer than 10 characters in their
original order, and maps the empty string to the empty list. -/
theorem extract_claims_spec (response : String) :
    extract_claims response
      = ((splitOnChar '.' response.data).map (fun s => String.mk (pyStrip s))).filter
          (fun t => decide (10 < t.length))
    ∧ extract_claims "" = [] := by
  constructor
  · unfold extract_claims
    exact extract_claims_mapfilter (splitOnChar '.' response.data)
  · decide

/-- C8: `flatten_context` fails with `MissingFieldError` exactly when a
record lacks the `text` field, and otherwise joins the `text` fields
with single spaces in input order. -/
theorem flatten_context_spec (vectors : List ContextVector) :
    (flatten_context vectors = Except.error EvalError.MissingFieldError ↔
      ∃ v ∈ vectors, v.text = none)
    ∧ ((∀ v ∈ vectors, v.text ≠ none) →
        flatten_context vectors
          = Except.ok (String.intercalate " " (vectors.filterMap (fun v => v.text)))) := by
  constructor
  · rw [← collectTexts_eq_none_iff]
    unfold flatten_context
    cases collectTexts vectors <;> simp
  · intro h
    unfold flatten_context
    rw [collectTexts_of_all_some vectors h]

/-- C8 witness: two well-formed vectors flatten to their space-joined
texts. -/
theorem flatten_context_spec_witness :
    flatten_context [⟨some "a"⟩, ⟨some "b"⟩]
      = Except.ok (String.intercalate " " ["a", "b"]) :=
  (flatten_context_spec [⟨some "a"⟩, ⟨some "b"⟩]).2 (by decide)

/-- C9: the query argument has no influence on the completeness score. -/
theorem completeness_score_ignores_query (q1 q2 response : String) :
    completeness_score q1 response = completeness_score q2 response := rfl

/-- C10: every successful evaluation reports
`estimated_cost_usd = round((450/1000) * 0.002, 6) = 0.0009`. -/
theorem evaluate_estimated_cost_constant (t0 t1 : ℚ) (chat_json : ChatJson)
    (context_json : ContextJson) (res : ScoreResult)
    (h : evaluate t0 t1 chat_json context_json = Except.ok res) :
    res.latency_and_cost.estimated_cost_usd = 9/10000 := by
  obtain ⟨u, ai, ctext, -, -, -, hres⟩ := evaluate_ok_elim t0 t1 chat_json context_json res h
  subst hres
  show pyRound 6 (((450 : ℕ) : ℚ) / 1000 * (2/1000)) = 9/10000
  rw [pyRound_eq_of_mul_pow_eq 6 _ 900 (by norm_num)]
  norm_num

/-- C4 counterexample: on a response with 201 extracted claims of which
exactly one is unsupported, the returned (rounded) hallucination_score
is 1 although `unsupported_claims` is non-empty. -/
theorem hallucination_score_one_with_unsupported :
    (hallucination_score repeatResponse "abcdefghijk").hallucination_score = 1
      ∧ (hallucination_score repeatResponse "abcdefghijk").unsupported_claims ≠ [] := by
  have hsim1 : similarity "abcdefghijk" "abcdefghijk" = 1 := similarity_self_aux _
  have hpfalse : decide (similarity "abcdefghijk" "abcdefghijk" < 35/100) = false := by
    rw [hsim1]
    exact decide_eq_false (by norm_num)
  have hptrue : decide (similarity "zzzzzzzzzzz" "abcdefghijk" < 35/100) = true := by
    rw [similarity_zzz_abc]
    exact decide_eq_true (by norm_num)
  have huns : (hallucination_score repeatResponse "abcdefghijk").unsupported_claims
      = ["zzzzzzzzzzz"] := by
    rw [hallucination_unsupported_eq, extract_claims_repeatResponse, List.filter_append]
    rw [filter_replicate_false (fun claim => decide (similarity claim "abcdefghijk" < 35/100))
      "abcdefghijk" hpfalse 200]
    rw [show List.filter (fun claim => decide (similarity claim "abcdefghijk" < 35/100))
        ["zzzzzzzzzzz"] = ["zzzzzzzzzzz"] from by
      rw [List.filter_cons, if_pos hptrue]
      rfl]
    rfl
  constructor
  · rw [hallucination_score_value, huns, extract_claims_repeatResponse]
    rw [show (["zzzzzzzzzzz"] : List String).length = 1 from rfl]
    rw [show (List.replicate 200 "abcdefghijk" ++ ["zzzzzzzzzzz"]).length = 201 from by
      rw [List.length_append, List.length_replicate]
      rfl]
    rw [show (max 201 1 : ℕ) = 201 from by norm_num]
    rw [pyRound2_eq_one_iff _ (by norm_num) (by norm_num)]
    norm_num
  · rw [huns]
    simp

/-- C4 amended: the returned hallucination_score equals 1 exactly when
at most one claim in two hundred is unsupported, that is, when
`200 * count(unsupported) ≤ max(count(claims), 1)` — in particular
whenever no extracted claim is unsupported or no claims exist at all. -/
theorem hallucination_score_eq_one_iff (response context_text : String) :
    (hallucination_score response context_text).hallucination_score = 1 ↔
      200 * (hallucination_score response context_text).unsupported_claims.length
        ≤ max (extract_claims response).length 1 := by
  rw [hallucination_score_value response context_text]
  have hum : (hallucination_score response context_text).unsupported_claims.length
      ≤ max (extract_claims response).length 1 := by
    rw [hallucination_unsupported_eq]
    exact le_trans (List.length_filter_le _ _) (le_max_left _ 1)
  have hm1 : 1 ≤ max (extract_claims response).length 1 := le_max_right _ _
  have hmQ : (0 : ℚ) < ((max (extract_claims response).length 1 : ℕ) : ℚ) := by
    exact_mod_cast Nat.lt_of_lt_of_le Nat.zero_lt_one hm1
  have hx0 : (0 : ℚ) ≤ 1
      - ((hallucination_score response context_text).unsupported_claims.length : ℚ)
        / ((max (extract_claims response).length 1 : ℕ) : ℚ) := by
    have hle : ((hallucination_score response context_text).unsupported_claims.length : ℚ)
        / ((max (extract_claims response).length 1 : ℕ) : ℚ) ≤ 1 := by
      rw [div_le_one hmQ]
      exact_mod_cast hum
    linarith
  have hx1 : 1 - ((hallucination_score response context_text).unsupported_claims.length : ℚ)
        / ((max (extract_claims response).length 1 : ℕ) : ℚ) ≤ 1 := by
    have hge : (0 : ℚ)
        ≤ ((hallucination_score response context_text).unsupported_claims.length : ℚ)
          / ((max (extract_claims response).length 1 : ℕ) : ℚ) := by positivity
    linarith
  rw [pyRound2_eq_one_iff _ hx0 hx1]
  constructor
  · intro h
    have hdiv : ((hallucination_score response context_text).unsupported_claims.length : ℚ)
        / ((max (extract_claims response).length 1 : ℕ) : ℚ) ≤ 1 / 200 := by linarith
    rw [div_le_div_iff₀ hmQ (by norm_num)] at hdiv
    exact_mod_cast
      (by linarith :
        (200 : ℚ) * (hallucination_score response context_text).unsupported_claims.length
          ≤ ((max (extract_claims response).length 1 : ℕ) : ℚ))
  · intro h
    have h' : (200 : ℚ)
        * (hallucination_score response context_text).unsupported_claims.length
        ≤ ((max (extract_claims response).length 1 : ℕ) : ℚ) := by exact_mod_cast h
    have hdiv : ((hallucination_score response context_text).unsupported_claims.length : ℚ)
        / ((max (extract_claims response).length 1 : ℕ) : ℚ) ≤ 1 / 200 := by
      rw [div_le_div_iff₀ hmQ (by norm_num)]
      linarith
    linarith

/-- C5: the similarity of every string with itself is 1.0 (even when the
string is long enough for the autojunk purge to empty the position
table, the zero-size anchored match is extended across the whole
diagonal by the non-junk extension loops). -/
theorem similarity_self_eq_one (s : String) : similarity s s = 1 :=
  similarity_self_aux s

/-- C1 witness: the concrete successful evaluation of `sampleChat`. -/
theorem evaluate_final_verdict_fail_iff_witness :
    sampleResult.final_verdict = "FAIL" ↔
      sampleResult.hallucination_analysis.unsupported_claims ≠ [] :=
  evaluate_final_verdict_fail_iff 0 1 sampleChat sampleContext sampleResult sample_evaluate_eq

/-- C10 witness: the concrete successful evaluation of `sampleChat`
reports the constant cost. -/
theorem evaluate_estimated_cost_constant_witness :
    sampleResult.latency_and_cost.estimated_cost_usd = 9/10000 :=
  evaluate_estimated_cost_constant 0 1 sampleChat sampleContext sampleResult sample_evaluate_eq

end Evaluation
